import Mathlib

/-!
Verification development for the core of a stack-based VM execution engine:
the jump-destination bitmap analyzer (`newCodeBitVec` / `bitvecGet` /
`isPushData`), the 256-bit operand stack (`Stack` with its multi-pop,
pop-and-peek, swap and dup primitives), and the batched-call layer
(`Multicall` / `DoMulticall`).

The stack is embedded directly from the Go source (`stack.go`): `data` is the
slice with the bottom at index 0 and the top at index `len-1`; every operation
mirrors the slice indexing of the source.  Go's out-of-range slice access
(a panic) is modelled with a default value `0`; every theorem about an
operation carries the depth precondition under which the Go code is defined,
matching the source's explicit contract that depth is validated by the caller.
-/

set_option maxRecDepth 4096

/-- 256-bit unsigned integers, the stack's element type (`uint256.Int`). -/
abbrev U256 := Fin (2 ^ 256)

instance : NeZero (2 ^ 256) := ⟨by norm_num⟩

/-- The operand stack: `data` lists the elements with the bottom first and the
top of the stack at index `data.length - 1`, exactly like the Go slice. -/
structure Stack where
  data : List U256
  deriving DecidableEq

/-- `len` returns the number of elements (`func (st *Stack) len() int`). -/
def Stack.len (st : Stack) : Nat :=
  st.data.length

/-- `push` appends `d` as the new top (`st.data = append(st.data, *d)`). -/
def Stack.push (st : Stack) (d : U256) : Stack :=
  ⟨st.data ++ [d]⟩

/-- `pop` removes and returns the top element
(`ret = st.data[len-1]; st.data = st.data[:len-1]`). -/
def Stack.pop (st : Stack) : U256 × Stack :=
  (st.data.getD (st.len - 1) 0, ⟨st.data.take (st.len - 1)⟩)

/-- `pop2` removes the top two elements, returning
`(pop0, pop1) = (data[len-1], data[len-2])`. -/
def Stack.pop2 (st : Stack) : U256 × U256 × Stack :=
  (st.data.getD (st.len - 1) 0, st.data.getD (st.len - 2) 0,
    ⟨st.data.take (st.len - 2)⟩)

/-- `pop3` removes the top three elements, returning
`(pop0, pop1, pop2) = (data[len-1], data[len-2], data[len-3])`. -/
def Stack.pop3 (st : Stack) : U256 × U256 × U256 × Stack :=
  (st.data.getD (st.len - 1) 0, st.data.getD (st.len - 2) 0,
    st.data.getD (st.len - 3) 0, ⟨st.data.take (st.len - 3)⟩)

/-- `pop4` removes the top four elements, returning
`(pop0, pop1, pop2, pop3) = (data[len-1], ..., data[len-4])`. -/
def Stack.pop4 (st : Stack) : U256 × U256 × U256 × U256 × Stack :=
  (st.data.getD (st.len - 1) 0, st.data.getD (st.len - 2) 0,
    st.data.getD (st.len - 3) 0, st.data.getD (st.len - 4) 0,
    ⟨st.data.take (st.len - 4)⟩)

/-- `popPeek` removes the top element and also returns the value of the slot
`data[len-2]` that the returned Go pointer `peek` refers to. -/
def Stack.popPeek (st : Stack) : U256 × U256 × Stack :=
  (st.data.getD (st.len - 1) 0, st.data.getD (st.len - 2) 0,
    ⟨st.data.take (st.len - 1)⟩)

/-- `pop2Peek`: pops the top two, `peek` refers to `data[len-3]`. -/
def Stack.pop2Peek (st : Stack) : U256 × U256 × U256 × Stack :=
  (st.data.getD (st.len - 1) 0, st.data.getD (st.len - 2) 0,
    st.data.getD (st.len - 3) 0, ⟨st.data.take (st.len - 2)⟩)

/-- `pop3Peek`: pops the top three, `peek` refers to `data[len-4]`. -/
def Stack.pop3Peek (st : Stack) : U256 × U256 × U256 × U256 × Stack :=
  (st.data.getD (st.len - 1) 0, st.data.getD (st.len - 2) 0,
    st.data.getD (st.len - 3) 0, st.data.getD (st.len - 4) 0,
    ⟨st.data.take (st.len - 3)⟩)

/-- `pop5Peek`: pops the top five, `peek` refers to `data[len-6]`. -/
def Stack.pop5Peek (st : Stack) : U256 × U256 × U256 × U256 × U256 × U256 × Stack :=
  (st.data.getD (st.len - 1) 0, st.data.getD (st.len - 2) 0,
    st.data.getD (st.len - 3) 0, st.data.getD (st.len - 4) 0,
    st.data.getD (st.len - 5) 0, st.data.getD (st.len - 6) 0,
    ⟨st.data.take (st.len - 5)⟩)

/-- `pop6Peek`: pops the top six, `peek` refers to `data[len-7]`. -/
def Stack.pop6Peek (st : Stack) :
    U256 × U256 × U256 × U256 × U256 × U256 × U256 × Stack :=
  (st.data.getD (st.len - 1) 0, st.data.getD (st.len - 2) 0,
    st.data.getD (st.len - 3) 0, st.data.getD (st.len - 4) 0,
    st.data.getD (st.len - 5) 0, st.data.getD (st.len - 6) 0,
    st.data.getD (st.len - 7) 0, ⟨st.data.take (st.len - 6)⟩)

/-- In-place exchange of the values at indices `i` and `j` of a list, the
functional reading of Go's `tmp[0], tmp[n] = tmp[n], tmp[0]` (both values read
before either write). -/
def swapAt (l : List U256) (i j : Nat) : List U256 :=
  (l.set i (l.getD j 0)).set j (l.getD i 0)

/-- `swap1` exchanges `data[len-2]` and `data[len-1]`. -/
def Stack.swap1 (st : Stack) : Stack := ⟨swapAt st.data (st.len - 2) (st.len - 1)⟩

/-- `swap2` exchanges `data[len-3]` and `data[len-1]`. -/
def Stack.swap2 (st : Stack) : Stack := ⟨swapAt st.data (st.len - 3) (st.len - 1)⟩

/-- `swap3` exchanges `data[len-4]` and `data[len-1]`. -/
def Stack.swap3 (st : Stack) : Stack := ⟨swapAt st.data (st.len - 4) (st.len - 1)⟩

/-- `swap4` exchanges `data[len-5]` and `data[len-1]`. -/
def Stack.swap4 (st : Stack) : Stack := ⟨swapAt st.data (st.len - 5) (st.len - 1)⟩

/-- `swap5` exchanges `data[len-6]` and `data[len-1]`. -/
def Stack.swap5 (st : Stack) : Stack := ⟨swapAt st.data (st.len - 6) (st.len - 1)⟩

/-- `swap6` exchanges `data[len-7]` and `data[len-1]`. -/
def Stack.swap6 (st : Stack) : Stack := ⟨swapAt st.data (st.len - 7) (st.len - 1)⟩

/-- `swap7` exchanges `data[len-8]` and `data[len-1]`. -/
def Stack.swap7 (st : Stack) : Stack := ⟨swapAt st.data (st.len - 8) (st.len - 1)⟩

/-- `swap8` exchanges `data[len-9]` and `data[len-1]`. -/
def Stack.swap8 (st : Stack) : Stack := ⟨swapAt st.data (st.len - 9) (st.len - 1)⟩

/-- `swap9` exchanges `data[len-10]` and `data[len-1]`. -/
def Stack.swap9 (st : Stack) : Stack := ⟨swapAt st.data (st.len - 10) (st.len - 1)⟩

/-- `swap10` exchanges `data[len-11]` and `data[len-1]`. -/
def Stack.swap10 (st : Stack) : Stack := ⟨swapAt st.data (st.len - 11) (st.len - 1)⟩

/-- `swap11` exchanges `data[len-12]` and `data[len-1]`. -/
def Stack.swap11 (st : Stack) : Stack := ⟨swapAt st.data (st.len - 12) (st.len - 1)⟩

/-- `swap12` exchanges `data[len-13]` and `data[len-1]`. -/
def Stack.swap12 (st : Stack) : Stack := ⟨swapAt st.data (st.len - 13) (st.len - 1)⟩

/-- `swap13` exchanges `data[len-14]` and `data[len-1]`. -/
def Stack.swap13 (st : Stack) : Stack := ⟨swapAt st.data (st.len - 14) (st.len - 1)⟩

/-- `swap14` exchanges `data[len-15]` and `data[len-1]`. -/
def Stack.swap14 (st : Stack) : Stack := ⟨swapAt st.data (st.len - 15) (st.len - 1)⟩

/-- `swap15` exchanges `data[len-16]` and `data[len-1]`. -/
def Stack.swap15 (st : Stack) : Stack := ⟨swapAt st.data (st.len - 16) (st.len - 1)⟩

/-- `swap16` exchanges `data[len-17]` and `data[len-1]`. -/
def Stack.swap16 (st : Stack) : Stack := ⟨swapAt st.data (st.len - 17) (st.len - 1)⟩

/-- Dispatcher over the sixteen source swap functions: `swapN n` is the
source's `swapn` for `n` in `1..16` (and the identity elsewhere, a case the
interpreter never invokes). -/
def swapN : Nat → Stack → Stack
  | 1, st => st.swap1
  | 2, st => st.swap2
  | 3, st => st.swap3
  | 4, st => st.swap4
  | 5, st => st.swap5
  | 6, st => st.swap6
  | 7, st => st.swap7
  | 8, st => st.swap8
  | 9, st => st.swap9
  | 10, st => st.swap10
  | 11, st => st.swap11
  | 12, st => st.swap12
  | 13, st => st.swap13
  | 14, st => st.swap14
  | 15, st => st.swap15
  | 16, st => st.swap16
  | _, st => st

/-- `dup n` pushes a copy of `data[len-n]` (`st.push(&st.data[st.len()-n])`). -/
def Stack.dup (st : Stack) (n : Nat) : Stack :=
  st.push (st.data.getD (st.len - n) 0)

/-- `peek` returns the value of the top slot `data[len-1]` (the referent of
the Go pointer) without removing it. -/
def Stack.peek (st : Stack) : U256 :=
  st.data.getD (st.len - 1) 0

/-- `Back n` returns the value of slot `data[len-n-1]`. -/
def Stack.Back (st : Stack) (n : Nat) : U256 :=
  st.data.getD (st.len - n - 1) 0

/-- `n` successive single pops: the list of popped values in the order they
were obtained, together with the final stack. -/
def Stack.popTimes : Nat → Stack → List U256 × Stack
  | 0, st => ([], st)
  | n + 1, st =>
    let p := st.pop
    let q := Stack.popTimes n p.2
    (p.1 :: q.1, q.2)

/-- Uniform view of the pop-and-peek family for the observed arities
`k` in `{1,2,3,5,6}`: the value of the slot the returned `peek` pointer refers
to, together with the resulting stack. -/
def popNPeekView (n : Nat) (st : Stack) : U256 × Stack :=
  match n with
  | 1 => ((st.popPeek).2.1, (st.popPeek).2.2)
  | 2 => ((st.pop2Peek).2.2.1, (st.pop2Peek).2.2.2)
  | 3 => ((st.pop3Peek).2.2.2.1, (st.pop3Peek).2.2.2.2)
  | 5 => ((st.pop5Peek).2.2.2.2.2.1, (st.pop5Peek).2.2.2.2.2.2)
  | 6 => ((st.pop6Peek).2.2.2.2.2.2.1, (st.pop6Peek).2.2.2.2.2.2.2)
  | _ => (0, st)

/-!
The jump-destination analyzer.  Only its test file (`core/vm/analysis_test.go`)
is among the given sources; the analyzer itself is modelled from the spec
(§4.1 `Build`, §4.2 `IsPushData`, §8 test vectors).  Where §4.1's prose
("intersected with `[0, codeLen)`") disagrees with §8's reference vectors and
the repository's own `TestBitvec` vectors (which show the data bits of a push
truncated by the buffer end spilling into the guard words, e.g.
`[PUSH32] -> {0xFFFFFFFE, 0x00000001}`), the vectors take precedence, as the
spec's design note instructs ("replicate the documented bit patterns exactly").
Bytes are modelled as `Nat` below 256; the push opcodes occupy `0x60..0x7f`
with `n = op - 0x60 + 1` immediate bytes, and the bitmap is a list of 32-bit
words, bit `i` of the logical bit array living in word `i / 32` at bit
`i % 32`.
-/

/-- Modelled from the spec: the scan loop of `Build` (the missing
`codeBitvecInternal`).  Starting from cursor `pc`, collect every byte position
that is push-immediate data: on a push opcode with `n` immediates the
positions `pc+1 .. pc+n` are marked (with no clipping at the buffer end, per
the §8 vectors) and the cursor advances by `n+1`, otherwise it advances by 1.
`fuel` bounds the iteration count; since every step advances the cursor by at
least one, `fuel = code.length` makes the scan run to the end of the buffer. -/
def pushdataScan (code : List Nat) : Nat → Nat → List Nat
  | 0, _ => []
  | fuel + 1, pc =>
    if pc < code.length then
      let op := code.getD pc 0
      if 0x60 ≤ op ∧ op ≤ 0x7f then
        (List.range (op - 0x60 + 1)).map (fun k => pc + 1 + k) ++
          pushdataScan code fuel (pc + (op - 0x60 + 1) + 1)
      else
        pushdataScan code fuel (pc + 1)
    else []

/-- Modelled from the spec: `Build` (the missing `newCodeBitVec`).  The bitmap
has `codeLen / 32 + 2` 32-bit words — at least two words always, and enough
guard space for the furthest bit a truncated push can mark (`codeLen + 31`) —
with exactly the scan's data positions set. -/
def newCodeBitVec (code : List Nat) : List Nat :=
  let ps := pushdataScan code code.length 0
  (List.range (code.length / 32 + 2)).map (fun w =>
    (List.range 32).foldl (fun acc b => if 32 * w + b ∈ ps then acc ||| (1 <<< b) else acc) 0)

/-- Point query into the packed bitmap: bit `pos % 32` of word `pos / 32`
(words missing from the list read as zero). -/
def bitvecGet (bv : List Nat) (pos : Nat) : Bool :=
  (bv.getD (pos / 32) 0).testBit (pos % 32)

/-- Modelled from the spec: `IsPushData` — an O(1) bit lookup that answers
`false` for every position at or beyond the analyzed code length (such
positions are not valid code; the bound check lives with the query per §4.1). -/
def isPushData (code : List Nat) (pos : Nat) : Bool :=
  decide (pos < code.length) && bitvecGet (newCodeBitVec code) pos

/-- The model reproduces every `Want` bitmap of `TestBitvec` in
`src/core/vm/analysis_test.go` (PUSH1 = 0x60, PUSH2 = 0x61, PUSH3 = 0x62,
PUSH8 = 0x67, PUSH16 = 0x6f, PUSH32 = 0x7f). -/
theorem newCodeBitVec_matches_test_vectors :
    newCodeBitVec [] = [0, 0] ∧
    newCodeBitVec [0x60, 0x01, 0x01, 0x01] = [0b10, 0] ∧
    newCodeBitVec [0x61, 0x01, 0x01, 0x01] = [0b110, 0] ∧
    newCodeBitVec [0x60, 0x60, 0x60, 0x60] = [0b1010, 0] ∧
    newCodeBitVec [0x00, 0x60, 0x00, 0x60, 0x00, 0x60, 0x00, 0x60] = [0b101010100, 0] ∧
    newCodeBitVec [0x67, 0x67, 0x67, 0x67, 0x67, 0x67, 0x67, 0x67, 0x01, 0x01, 0x01] =
      [0b111111110, 0] ∧
    newCodeBitVec [0x01, 0x01, 0x01, 0x01, 0x01, 0x61, 0x01, 0x01, 0x01, 0x01, 0x01] =
      [0b11000000, 0] ∧
    newCodeBitVec [0x62, 0x01, 0x01, 0x01, 0x60, 0x01, 0x01, 0x01, 0x01, 0x01, 0x01] =
      [0b101110, 0] ∧
    newCodeBitVec [0x01, 0x67, 0x01, 0x01, 0x01, 0x01, 0x01, 0x01, 0x01, 0x01, 0x01, 0x01] =
      [0b1111111100, 0] ∧
    newCodeBitVec [0x6f, 0x01, 0x01, 0x01, 0x01, 0x01, 0x01, 0x01, 0x01, 0x01, 0x01] =
      [0b11111111111111110, 0] ∧
    newCodeBitVec [0x67, 0x01, 0x02, 0x03, 0x04, 0x05, 0x06, 0x07, 0x08, 0x60, 0x01] =
      [0b10111111110, 0] ∧
    newCodeBitVec [0x7f] = [0xFFFFFFFE, 0x00000001] ∧
    newCodeBitVec [0x00, 0x00, 0x00, 0x00, 0x00, 0x00, 0x00, 0x00,
      0x00, 0x00, 0x00, 0x00, 0x00, 0x00, 0x00, 0x00,
      0x00, 0x00, 0x00, 0x00, 0x00, 0x00, 0x00, 0x00,
      0x00, 0x00, 0x00, 0x00, 0x00, 0x00, 0x61, 0xff, 0xff] =
      [0x80000000, 0x00000001, 0] ∧
    newCodeBitVec [0x00, 0x00, 0x00, 0x00, 0x00, 0x00, 0x00, 0x00,
      0x00, 0x00, 0x00, 0x00, 0x00, 0x00, 0x00, 0x00,
      0x00, 0x00, 0x00, 0x00, 0x00, 0x00, 0x00, 0x00,
      0x00, 0x00, 0x00, 0x00, 0x00, 0x00, 0x00, 0x7f] =
      [0x00000000, 0xFFFFFFFF, 0] := by
  decide

/-!
The batched-call layer (`internal/ethapi/api_ext.go`).  A per-call execution
record keeps the two fields the error policy reads: the raw return data
(`Output`) and the optional execution failure (`Err`, a revert or similar
recorded by the EVM, modelled as an error message).  The remaining fields of
`ExecutionResultArgs` (gas used, access list, logs) play no role in the
claims and are omitted.
-/

/-- One call's execution record: the fields of `ExecutionResultArgs` that the
error policy reads. -/
structure ExecResult where
  output : List Nat
  err : Option String
  deriving DecidableEq

/-- `fmt.Errorf("%w: %s", err, reason)` when `abi.UnpackRevert` succeeds on
the call's return data, the raw error otherwise.  `unpack` abstracts
`abi.UnpackRevert` (not among the given sources). -/
def decorateErr (unpack : List Nat → Option String) (output : List Nat) (e : String) : String :=
  match unpack output with
  | some reason => e ++ ": " ++ reason
  | none => e

/-- The error-selection loop of `Multicall`: iterate over the results in
order and, for every result whose `Err` is set, overwrite `firstErr` with
`(i+1, decorated error)` — exactly the Go loop, in which the assignment to
`firstErr` is not guarded by a nil check, so each failing call replaces the
previously recorded one. -/
def multicallCollect (unpack : List Nat → Option String) (results : List ExecResult) :
    Option (Nat × String) :=
  results.enum.foldl
    (fun firstErr ir =>
      match ir.2.err with
      | none => firstErr
      | some e => some (ir.1 + 1, decorateErr unpack ir.2.output e))
    none

/-- `Multicall` hands the per-call results of `DoMulticall` back to the caller
unchanged (the loop mutates only its local copy of each record) together with
the error selected by the loop. -/
def Multicall (unpack : List Nat → Option String) (results : List ExecResult) :
    List ExecResult × Option (Nat × String) :=
  (results, multicallCollect unpack results)

/-- The loop body of `DoMulticall` over an abstract per-call execution
`applyCall` (standing for `ToMessage`/`GetEVM`/`core.ApplyMessage`/`vmError`,
none of which are among the given sources): a fatal setup or VM error aborts
the whole batch with `Except.error`; otherwise the call's record `r` — whose
`err` field may well be set — is appended to the accumulator and the loop
continues with the post-state of the call, committed
(`state.Commit(false)`) whenever the call is not the last one. -/
def doMulticallLoop {Call Fatal σ : Type} (applyCall : Call → σ → Except Fatal (ExecResult × σ))
    (commit : σ → σ) : List Call → σ → List ExecResult → Except Fatal (List ExecResult × σ)
  | [], st, acc => .ok (acc.reverse, st)
  | c :: cs, st, acc =>
    match applyCall c st with
    | .error e => .error e
    | .ok (r, st') =>
      doMulticallLoop applyCall commit cs (if cs.isEmpty then st' else commit st') (r :: acc)

/-- `DoMulticall`: run the batch from the initial state with an empty result
accumulator. -/
def DoMulticall {Call Fatal σ : Type} (applyCall : Call → σ → Except Fatal (ExecResult × σ))
    (commit : σ → σ) (calls : List Call) (st : σ) : Except Fatal (List ExecResult × σ) :=
  doMulticallLoop applyCall commit calls st []

/-! Helper lemmas on lists and on the stack operations. -/

theorem getD_append_idx {α : Type} (l m : List α) (d : α) (k : Nat) (h : l.length ≤ k) :
    (l ++ m).getD k d = m.getD (k - l.length) d := by
  induction l generalizing k with
  | nil => simp
  | cons x xs ih =>
    cases k with
    | zero => simp at h
    | succ k =>
      simp only [List.cons_append, List.getD_cons_succ, List.length_cons]
      rw [ih k (by simpa using h)]
      congr 1
      omega

theorem getD_take_lt {α : Type} (l : List α) (d : α) (n k : Nat) (h : k < n) :
    (l.take n).getD k d = l.getD k d := by
  by_cases hk : k < l.length
  · rw [List.getD_eq_getElem _ _ (by simp [List.length_take]; omega),
      List.getD_eq_getElem _ _ hk, List.getElem_take]
  · rw [List.getD_eq_default _ _ (by simp [List.length_take]; omega),
      List.getD_eq_default _ _ (by omega)]

theorem getD_set_self {α : Type} (l : List α) (d a : α) (i : Nat) (h : i < l.length) :
    (l.set i a).getD i d = a := by
  rw [List.getD_eq_getElem _ _ (by simpa using h), List.getElem_set]
  simp

theorem getD_set_ne {α : Type} (l : List α) (d a : α) (i j : Nat) (h : i ≠ j) :
    (l.set i a).getD j d = l.getD j d := by
  by_cases hj : j < l.length
  · rw [List.getD_eq_getElem _ _ (by simpa using hj), List.getD_eq_getElem _ _ hj,
      List.getElem_set]
    simp [h]
  · rw [List.getD_eq_default _ _ (by simpa using hj), List.getD_eq_default _ _ (by omega)]

theorem set_getD_self {α : Type} (l : List α) (d : α) (i : Nat) (h : i < l.length) :
    l.set i (l.getD i d) = l := by
  induction l generalizing i with
  | nil => simp at h
  | cons x xs ih =>
    cases i with
    | zero => simp
    | succ i =>
      have hx := ih i (by simpa using h)
      simp only [List.getD_cons_succ, List.set_cons_succ, hx]

theorem length_swapAt (l : List U256) (i j : Nat) : (swapAt l i j).length = l.length := by
  simp [swapAt]

theorem swapAt_swapAt (l : List U256) (i j : Nat) (hi : i < l.length) (hj : j < l.length)
    (hij : i ≠ j) : swapAt (swapAt l i j) i j = l := by
  have h1 : (swapAt l i j).getD j 0 = l.getD i 0 :=
    getD_set_self _ _ _ _ (by simpa using hj)
  have h2 : (swapAt l i j).getD i 0 = l.getD j 0 := by
    unfold swapAt
    rw [getD_set_ne _ _ _ _ _ (Ne.symm hij), getD_set_self _ _ _ _ hi]
  have s1 : ((l.set i (l.getD j 0)).set j (l.getD i 0)).set i (l.getD i 0)
      = (l.set i (l.getD i 0)).set j (l.getD i 0) := by
    rw [List.set_comm _ _ _ (Ne.symm hij), List.set_set]
  calc swapAt (swapAt l i j) i j
      = ((swapAt l i j).set i (l.getD i 0)).set j (l.getD j 0) := by
        show ((swapAt l i j).set i ((swapAt l i j).getD j 0)).set j ((swapAt l i j).getD i 0) = _
        rw [h1, h2]
    _ = (((l.set i (l.getD j 0)).set j (l.getD i 0)).set i (l.getD i 0)).set j (l.getD j 0) :=
        rfl
    _ = ((l.set i (l.getD i 0)).set j (l.getD i 0)).set j (l.getD j 0) := by rw [s1]
    _ = (l.set i (l.getD i 0)).set j (l.getD j 0) := by rw [List.set_set]
    _ = l.set j (l.getD j 0) := by rw [set_getD_self _ _ _ hi]
    _ = l := set_getD_self _ _ _ hj

theorem len_push (st : Stack) (x : U256) : (st.push x).len = st.len + 1 := by
  simp [Stack.push, Stack.len]

theorem push_push_data (st : Stack) (a b : U256) :
    ((st.push a).push b).data = st.data ++ [a, b] := by
  simp [Stack.push]

theorem pop_push (st : Stack) (x : U256) : (st.push x).pop = (x, st) := by
  obtain ⟨d⟩ := st
  simp only [Stack.push, Stack.pop, Stack.len, List.length_append, List.length_cons,
    List.length_nil, Nat.zero_add, Nat.add_sub_cancel]
  rw [getD_append_idx _ _ _ _ (Nat.le_refl _), List.take_left]
  simp

theorem pop2_push (st : Stack) (a b : U256) : ((st.push a).push b).pop2 = (b, a, st) := by
  obtain ⟨d⟩ := st
  simp only [Stack.push, Stack.pop2, Stack.len, List.append_assoc, List.cons_append,
    List.nil_append, List.length_append, List.length_cons, List.length_nil]
  have h1 : d.length + (0 + 2) - 1 = d.length + 1 := by omega
  have h2 : d.length + (0 + 2) - 2 = d.length := by omega
  rw [h1, h2, getD_append_idx _ _ _ _ (by omega), getD_append_idx _ _ _ _ (by omega),
    List.take_left]
  have e1 : d.length + 1 - d.length = 1 := by omega
  have e2 : d.length - d.length = 0 := by omega
  rw [e1, e2]
  rfl

theorem pop3_push (st : Stack) (a b c : U256) :
    (((st.push a).push b).push c).pop3 = (c, b, a, st) := by
  obtain ⟨d⟩ := st
  simp only [Stack.push, Stack.pop3, Stack.len, List.append_assoc, List.cons_append,
    List.nil_append, List.length_append, List.length_cons, List.length_nil]
  have h1 : d.length + (0 + 3) - 1 = d.length + 2 := by omega
  have h2 : d.length + (0 + 3) - 2 = d.length + 1 := by omega
  have h3 : d.length + (0 + 3) - 3 = d.length := by omega
  rw [h1, h2, h3, getD_append_idx _ _ _ _ (by omega), getD_append_idx _ _ _ _ (by omega),
    getD_append_idx _ _ _ _ (by omega), List.take_left]
  have e1 : d.length + 2 - d.length = 2 := by omega
  have e2 : d.length + 1 - d.length = 1 := by omega
  have e3 : d.length - d.length = 0 := by omega
  rw [e1, e2, e3]
  rfl

theorem pop4_push (st : Stack) (a b c e : U256) :
    ((((st.push a).push b).push c).push e).pop4 = (e, c, b, a, st) := by
  obtain ⟨d⟩ := st
  simp only [Stack.push, Stack.pop4, Stack.len, List.append_assoc, List.cons_append,
    List.nil_append, List.length_append, List.length_cons, List.length_nil]
  have h1 : d.length + (0 + 4) - 1 = d.length + 3 := by omega
  have h2 : d.length + (0 + 4) - 2 = d.length + 2 := by omega
  have h3 : d.length + (0 + 4) - 3 = d.length + 1 := by omega
  have h4 : d.length + (0 + 4) - 4 = d.length := by omega
  rw [h1, h2, h3, h4, getD_append_idx _ _ _ _ (by omega), getD_append_idx _ _ _ _ (by omega),
    getD_append_idx _ _ _ _ (by omega), getD_append_idx _ _ _ _ (by omega), List.take_left]
  have e1 : d.length + 3 - d.length = 3 := by omega
  have e2 : d.length + 2 - d.length = 2 := by omega
  have e3 : d.length + 1 - d.length = 1 := by omega
  have e4 : d.length - d.length = 0 := by omega
  rw [e1, e2, e3, e4]
  rfl

theorem exists_push_decomp (st : Stack) (h : 1 ≤ st.len) :
    ∃ (q : Stack) (x : U256), st = q.push x := by
  obtain ⟨d⟩ := st
  have hne : d ≠ [] := by
    intro hd
    simp [Stack.len, hd] at h
  refine ⟨⟨d.dropLast⟩, d.getLast hne, ?_⟩
  simp [Stack.push, List.dropLast_append_getLast hne]

theorem peek_of_take (d : List U256) (k : Nat) (h : k + 1 ≤ d.length) :
    (Stack.mk (d.take (d.length - k))).peek = d.getD (d.length - (k + 1)) 0 := by
  simp only [Stack.peek, Stack.len]
  have hlen : (d.take (d.length - k)).length = d.length - k := by
    rw [List.length_take]
    omega
  rw [hlen, getD_take_lt _ _ _ _ (by omega), Nat.sub_sub]

theorem doMulticallLoop_acc {Call Fatal σ : Type}
    (applyCall : Call → σ → Except Fatal (ExecResult × σ)) (commit : σ → σ)
    (cs : List Call) (st : σ) (acc : List ExecResult) :
    doMulticallLoop applyCall commit cs st acc =
      Except.map (fun p => (acc.reverse ++ p.1, p.2))
        (doMulticallLoop applyCall commit cs st []) := by
  induction cs generalizing st acc with
  | nil => simp [doMulticallLoop, Except.map]
  | cons c cs ih =>
    simp only [doMulticallLoop]
    cases happ : applyCall c st with
    | error e => simp [Except.map]
    | ok rs =>
      obtain ⟨r, st2⟩ := rs
      show doMulticallLoop applyCall commit cs (if cs.isEmpty then st2 else commit st2)
            (r :: acc) =
          Except.map (fun p => (acc.reverse ++ p.1, p.2))
            (doMulticallLoop applyCall commit cs (if cs.isEmpty then st2 else commit st2) [r])
      rw [ih _ (r :: acc), ih _ [r]]
      cases hres : doMulticallLoop applyCall commit cs
          (if cs.isEmpty then st2 else commit st2) [] with
      | error e => simp [Except.map]
      | ok p => simp [Except.map]

theorem testBit_foldl_mark (ps : List Nat) (w : Nat) (bs : List Nat) (acc j : Nat) :
    (bs.foldl (fun acc b => if 32 * w + b ∈ ps then acc ||| (1 <<< b) else acc) acc).testBit j
      = (acc.testBit j || decide (j ∈ bs ∧ 32 * w + j ∈ ps)) := by
  induction bs generalizing acc with
  | nil => simp
  | cons b bs ih =>
    rw [List.foldl_cons, ih]
    by_cases hb : 32 * w + b ∈ ps
    · simp only [if_pos hb, Nat.testBit_or, Nat.shiftLeft_eq, one_mul, Nat.testBit_two_pow]
      by_cases hj : j = b
      · subst hj
        simp [List.mem_cons, hb]
      · simp [List.mem_cons, hj, Ne.symm hj, Bool.or_assoc]
    · simp only [if_neg hb]
      by_cases hj : j = b
      · subst hj
        simp [List.mem_cons, hb]
      · simp [List.mem_cons, hj]

theorem length_newCodeBitVec (code : List Nat) :
    (newCodeBitVec code).length = code.length / 32 + 2 := by
  simp [newCodeBitVec]

theorem bitvecGet_mem (code : List Nat) (pos : Nat) :
    bitvecGet (newCodeBitVec code) pos =
      decide (pos ∈ pushdataScan code code.length 0 ∧
        pos < 32 * (code.length / 32 + 2)) := by
  simp only [bitvecGet, newCodeBitVec]
  by_cases h : pos / 32 < code.length / 32 + 2
  · rw [List.getD_eq_getElem _ _ (by simp only [List.length_map, List.length_range]; exact h)]
    simp only [List.getElem_map, List.getElem_range]
    rw [testBit_foldl_mark, Nat.zero_testBit, Bool.false_or, Nat.div_add_mod]
    have hm : pos % 32 ∈ List.range 32 := List.mem_range.mpr (Nat.mod_lt _ (by norm_num))
    have hlt : pos < 32 * (code.length / 32 + 2) := by omega
    simp only [hm, hlt, true_and, and_true]
  · rw [List.getD_eq_default _ _ (by simp only [List.length_map, List.length_range]; omega),
      Nat.zero_testBit]
    symm
    rw [decide_eq_false_iff_not]
    intro hc
    omega

theorem pushdataScan_mem_bound (code : List Nat) :
    ∀ fuel pc p, p ∈ pushdataScan code fuel pc → p ≤ code.length + 31 := by
  intro fuel
  induction fuel with
  | zero =>
    intro pc p hp
    simp [pushdataScan] at hp
  | succ fuel ih =>
    intro pc p hp
    simp only [pushdataScan] at hp
    by_cases hpc : pc < code.length
    · rw [if_pos hpc] at hp
      by_cases hop : 0x60 ≤ code.getD pc 0 ∧ code.getD pc 0 ≤ 0x7f
      · rw [if_pos hop] at hp
        rcases List.mem_append.mp hp with hm | hm
        · obtain ⟨k, hk, rfl⟩ := List.mem_map.mp hm
          have hk32 : k < 32 := by
            have := List.mem_range.mp hk
            omega
          omega
        · exact ih _ _ hm
      · rw [if_neg hop] at hp
        exact ih _ _ hp
    · rw [if_neg hpc] at hp
      simp at hp

theorem pushdataScan_marks (code : List Nat) (fuel pc k : Nat) (hpc : pc < code.length)
    (hlo : 0x60 ≤ code.getD pc 0) (hhi : code.getD pc 0 ≤ 0x7f)
    (hk : k < code.getD pc 0 - 0x60 + 1) :
    pc + 1 + k ∈ pushdataScan code (fuel + 1) pc := by
  simp only [pushdataScan]
  rw [if_pos hpc, if_pos ⟨hlo, hhi⟩]
  exact List.mem_append_left _ (List.mem_map.mpr ⟨k, List.mem_range.mpr hk, rfl⟩)

theorem popTimes_two (st : Stack) :
    Stack.popTimes 2 st = (st.pop.1 :: st.pop.2.pop.1 :: [], st.pop.2.pop.2) := rfl

theorem popTimes_three (st : Stack) :
    Stack.popTimes 3 st =
      (st.pop.1 :: st.pop.2.pop.1 :: st.pop.2.pop.2.pop.1 :: [], st.pop.2.pop.2.pop.2) := rfl

theorem popTimes_four (st : Stack) :
    Stack.popTimes 4 st =
      (st.pop.1 :: st.pop.2.pop.1 :: st.pop.2.pop.2.pop.1 :: st.pop.2.pop.2.pop.2.pop.1 :: [],
        st.pop.2.pop.2.pop.2.pop.2) := rfl

/-! The claims. -/

/-- C1 counterexample: push 1, 2, 3 in that order (3 becomes the top) and
call `pop3`: the first returned component `pop0` is 3 — the former top — and
not 1, the deepest of the three, as the claim states. -/
theorem pop3_order_counterexample :
    ((((⟨[]⟩ : Stack).push 1).push 2).push 3).pop3.1 = (3 : U256) ∧
    ¬ ((((⟨[]⟩ : Stack).push 1).push 2).push 3).pop3.1 = (1 : U256) := by
  decide

/-- C1 (amended): for every stack and N in {2,3,4}, the N-ary pop removes the
top N elements and returns them as a tuple ordered former-top first: `pop0`
is the value that was on top and `pop(N-1)` the deepest of the popped group;
in particular after pushing `a, b, c` in that order, `pop3` returns `c` first
and `a` last. -/
theorem popN_top_first (st : Stack) (a b c e : U256) :
    ((st.push a).push b).pop2 = (b, a, st) ∧
    (((st.push a).push b).push c).pop3 = (c, b, a, st) ∧
    ((((st.push a).push b).push c).push e).pop4 = (e, c, b, a, st) :=
  ⟨pop2_push st a b, pop3_push st a b c, pop4_push st a b c e⟩

/-- C10: for every stack holding at least N elements (N in {2,3,4}), the
N-ary pop yields the same final stack as N successive single pops, and its
tuple lists exactly the single-pop values in the order they are obtained
(first single pop's value — the former top — first). -/
theorem popN_refines_iterated_pop (st : Stack) :
    (2 ≤ st.len → ([st.pop2.1, st.pop2.2.1], st.pop2.2.2) = Stack.popTimes 2 st) ∧
    (3 ≤ st.len →
      ([st.pop3.1, st.pop3.2.1, st.pop3.2.2.1], st.pop3.2.2.2) = Stack.popTimes 3 st) ∧
    (4 ≤ st.len →
      ([st.pop4.1, st.pop4.2.1, st.pop4.2.2.1, st.pop4.2.2.2.1], st.pop4.2.2.2.2) =
        Stack.popTimes 4 st) := by
  refine ⟨?_, ?_, ?_⟩
  · intro h
    obtain ⟨q1, x1, rfl⟩ := exists_push_decomp st (by omega)
    obtain ⟨q2, x2, rfl⟩ := exists_push_decomp q1 (by rw [len_push] at h; omega)
    simp [pop2_push, popTimes_two, pop_push]
  · intro h
    obtain ⟨q1, x1, rfl⟩ := exists_push_decomp st (by omega)
    obtain ⟨q2, x2, rfl⟩ := exists_push_decomp q1 (by rw [len_push] at h; omega)
    obtain ⟨q3, x3, rfl⟩ := exists_push_decomp q2 (by rw [len_push, len_push] at h; omega)
    simp [pop3_push, popTimes_three, pop_push]
  · intro h
    obtain ⟨q1, x1, rfl⟩ := exists_push_decomp st (by omega)
    obtain ⟨q2, x2, rfl⟩ := exists_push_decomp q1 (by rw [len_push] at h; omega)
    obtain ⟨q3, x3, rfl⟩ := exists_push_decomp q2 (by rw [len_push, len_push] at h; omega)
    obtain ⟨q4, x4, rfl⟩ :=
      exists_push_decomp q3 (by rw [len_push, len_push, len_push] at h; omega)
    simp [pop4_push, popTimes_four, pop_push]

/-- C10 witness: the refinement evaluated on the concrete four-element stack
`[9, 8, 7, 6]` (6 on top). -/
theorem popN_refines_iterated_pop_witness :
    ([(⟨[9, 8, 7, 6]⟩ : Stack).pop2.1, (⟨[9, 8, 7, 6]⟩ : Stack).pop2.2.1],
        (⟨[9, 8, 7, 6]⟩ : Stack).pop2.2.2) = Stack.popTimes 2 (⟨[9, 8, 7, 6]⟩ : Stack) ∧
    ([(⟨[9, 8, 7, 6]⟩ : Stack).pop3.1, (⟨[9, 8, 7, 6]⟩ : Stack).pop3.2.1,
        (⟨[9, 8, 7, 6]⟩ : Stack).pop3.2.2.1],
        (⟨[9, 8, 7, 6]⟩ : Stack).pop3.2.2.2) = Stack.popTimes 3 (⟨[9, 8, 7, 6]⟩ : Stack) ∧
    ([(⟨[9, 8, 7, 6]⟩ : Stack).pop4.1, (⟨[9, 8, 7, 6]⟩ : Stack).pop4.2.1,
        (⟨[9, 8, 7, 6]⟩ : Stack).pop4.2.2.1, (⟨[9, 8, 7, 6]⟩ : Stack).pop4.2.2.2.1],
        (⟨[9, 8, 7, 6]⟩ : Stack).pop4.2.2.2.2) = Stack.popTimes 4 (⟨[9, 8, 7, 6]⟩ : Stack) :=
  ⟨(popN_refines_iterated_pop _).1 (by decide),
   (popN_refines_iterated_pop _).2.1 (by decide),
   (popN_refines_iterated_pop _).2.2 (by decide)⟩

theorem popNPeekView_spec (st : Stack) (n : Nat)
    (hv : popNPeekView n st =
      (st.data.getD (st.len - (n + 1)) 0, ⟨st.data.take (st.len - n)⟩))
    (h : n + 1 ≤ st.len) :
    (popNPeekView n st).2.data = st.data.take (st.len - n) ∧
    (popNPeekView n st).1 = st.data.getD (st.len - (n + 1)) 0 ∧
    (popNPeekView n st).1 = (popNPeekView n st).2.peek := by
  refine ⟨by rw [hv], by rw [hv], ?_⟩
  rw [hv]
  simp only [Stack.len] at h ⊢
  rw [peek_of_take st.data n (by omega)]

/-- C7: for every observed arity k in {1,2,3,5,6} and every stack holding at
least k+1 elements, the pop-and-peek operation removes exactly the top k
elements, and the returned `peek` reference designates the slot
`data[len-k-1]` — the element immediately below the popped group — which is
the top of the resulting stack. -/
theorem popPeek_family (st : Stack) (n : Nat) (hn : n ∈ ([1, 2, 3, 5, 6] : List Nat))
    (h : n + 1 ≤ st.len) :
    (popNPeekView n st).2.data = st.data.take (st.len - n) ∧
    (popNPeekView n st).1 = st.data.getD (st.len - (n + 1)) 0 ∧
    (popNPeekView n st).1 = (popNPeekView n st).2.peek := by
  fin_cases hn
  · exact popNPeekView_spec st 1 rfl h
  · exact popNPeekView_spec st 2 rfl h
  · exact popNPeekView_spec st 3 rfl h
  · exact popNPeekView_spec st 5 rfl h
  · exact popNPeekView_spec st 6 rfl h

/-- C7 witness: `pop6Peek` on the concrete eight-element stack
`[10, 11, 12, 13, 14, 15, 16, 17]` (17 on top). -/
theorem popPeek_family_witness :
    (popNPeekView 6 (⟨[10, 11, 12, 13, 14, 15, 16, 17]⟩ : Stack)).2.data =
      (⟨[10, 11, 12, 13, 14, 15, 16, 17]⟩ : Stack).data.take
        ((⟨[10, 11, 12, 13, 14, 15, 16, 17]⟩ : Stack).len - 6) ∧
    (popNPeekView 6 (⟨[10, 11, 12, 13, 14, 15, 16, 17]⟩ : Stack)).1 =
      (⟨[10, 11, 12, 13, 14, 15, 16, 17]⟩ : Stack).data.getD
        ((⟨[10, 11, 12, 13, 14, 15, 16, 17]⟩ : Stack).len - (6 + 1)) 0 ∧
    (popNPeekView 6 (⟨[10, 11, 12, 13, 14, 15, 16, 17]⟩ : Stack)).1 =
      (popNPeekView 6 (⟨[10, 11, 12, 13, 14, 15, 16, 17]⟩ : Stack)).2.peek :=
  popPeek_family _ 6 (by decide) (by decide)

/-- C8: for every n in 1..16 and every stack holding at least n+1 elements,
`swapN n` applied twice restores the stack; and `dup 1` followed by `pop`
leaves every non-empty stack unchanged. -/
theorem swap_involution_dup_pop (st : Stack) :
    (∀ n, 1 ≤ n → n ≤ 16 → n + 1 ≤ st.len → swapN n (swapN n st) = st) ∧
    (1 ≤ st.len → ((st.dup 1).pop).2 = st) := by
  obtain ⟨d⟩ := st
  constructor
  · intro n h1 h16 hlen
    simp only [Stack.len] at hlen
    interval_cases n <;>
      simp only [swapN, Stack.swap1, Stack.swap2, Stack.swap3, Stack.swap4, Stack.swap5,
        Stack.swap6, Stack.swap7, Stack.swap8, Stack.swap9, Stack.swap10, Stack.swap11,
        Stack.swap12, Stack.swap13, Stack.swap14, Stack.swap15, Stack.swap16, Stack.len,
        length_swapAt, Stack.mk.injEq] <;>
      rw [swapAt_swapAt _ _ _ (by omega) (by omega) (by omega)]
  · intro h
    simp [Stack.dup, Stack.push, Stack.pop, Stack.len, List.take_left]

/-- C8 witness: `swapN 2` twice and `dup 1` then `pop` on the concrete stack
`[4, 5, 6]` (6 on top). -/
theorem swap_involution_dup_pop_witness :
    swapN 2 (swapN 2 (⟨[4, 5, 6]⟩ : Stack)) = (⟨[4, 5, 6]⟩ : Stack) ∧
    (((⟨[4, 5, 6]⟩ : Stack).dup 1).pop).2 = (⟨[4, 5, 6]⟩ : Stack) :=
  ⟨(swap_involution_dup_pop _).1 2 (by decide) (by decide) (by decide),
   (swap_involution_dup_pop _).2 (by decide)⟩

/-- C2 counterexample: on the one-byte code `[PUSH32]` the bit of position 32
is set — a data bit at a position at/beyond the code length 1, hence beyond
the buffer end — refuting "marks only positions < code length / sets no bits
beyond the buffer" (the repository's own test vector
`{0xFFFFFFFE, 0x00000001}` mandates exactly this spill). -/
theorem build_push32_counterexample :
    List.length [(0x7f : Nat)] ≤ 32 ∧ bitvecGet (newCodeBitVec [0x7f]) 32 = true := by
  decide

/-- C2 (amended): for every code buffer, a push whose declared immediate
length extends past the end of the buffer still gets all of its declared data
positions marked, and no out-of-range access occurs.  Universally: (i) the
bits `Build` sets are exactly the scan's declared data positions — so every
declared position, including those beyond the buffer end, is marked in the
bitmap; (ii) every set bit lies at a position at most `codeLen + 31` (the
furthest data position a push starting inside the buffer can declare) and
strictly inside the allocated `codeLen/32 + 2` words, so the spill stays in
the guard words and nothing is written out of range; (iii) a push opcode at
any cursor `pc` inside the buffer declares every one of its `n` data
positions `pc+1+k` (`k < n`) regardless of where the buffer ends.  In
particular, `Build` on the one-byte code `[PUSH32]` sets exactly bits 1..32
(31 bits of the first word plus one guard-word bit), matching the test vector
`{0xFFFFFFFE, 0x00000001}`. -/
theorem build_truncated_push_marking :
    (∀ (code : List Nat) (pos : Nat),
      bitvecGet (newCodeBitVec code) pos = true ↔
        pos ∈ pushdataScan code code.length 0) ∧
    (∀ (code : List Nat) (pos : Nat), bitvecGet (newCodeBitVec code) pos = true →
      pos ≤ code.length + 31 ∧ pos < 32 * (newCodeBitVec code).length) ∧
    (∀ (code : List Nat) (fuel pc k : Nat), pc < code.length →
      0x60 ≤ code.getD pc 0 → code.getD pc 0 ≤ 0x7f → k < code.getD pc 0 - 0x60 + 1 →
      pc + 1 + k ∈ pushdataScan code (fuel + 1) pc) ∧
    newCodeBitVec [0x7f] = [0xFFFFFFFE, 0x00000001] ∧
    (∀ pos, bitvecGet (newCodeBitVec [0x7f]) pos = decide (1 ≤ pos ∧ pos ≤ 32)) := by
  refine ⟨?_, ?_, ?_, by decide, ?_⟩
  · intro code pos
    rw [bitvecGet_mem, decide_eq_true_eq]
    constructor
    · exact And.left
    · intro hm
      refine ⟨hm, ?_⟩
      have := pushdataScan_mem_bound code code.length 0 pos hm
      omega
  · intro code pos h
    rw [bitvecGet_mem, decide_eq_true_eq] at h
    obtain ⟨hm, hlt⟩ := h
    refine ⟨pushdataScan_mem_bound code code.length 0 pos hm, ?_⟩
    rw [length_newCodeBitVec]
    exact hlt
  · exact fun code fuel pc k hpc hlo hhi hk => pushdataScan_marks code fuel pc k hpc hlo hhi hk
  · intro pos
    by_cases h : pos < 64
    · have hall : ∀ q, q < 64 →
          bitvecGet (newCodeBitVec [0x7f]) q = decide (1 ≤ q ∧ q ≤ 32) := by
        decide
      exact hall pos h
    · have hbv : newCodeBitVec [0x7f] = [0xFFFFFFFE, 0x00000001] := by decide
      unfold bitvecGet
      rw [hbv,
        List.getD_eq_default _ _ (by simp only [List.length_cons, List.length_nil]; omega),
        Nat.zero_testBit]
      symm
      simp only [decide_eq_false_iff_not]
      omega

/-- C2 witness: the guard-word bound and the universal marking, instantiated
on the one-byte code `[PUSH32]`: the set bit at position 32 lies within
`codeLen + 31` and inside the allocated words, and the push decoded at cursor
0 declares its 32nd data position `0+1+31` although the buffer ends at
position 1. -/
theorem build_truncated_push_marking_witness :
    (32 ≤ List.length [(0x7f : Nat)] + 31 ∧ 32 < 32 * (newCodeBitVec [0x7f]).length) ∧
    0 + 1 + 31 ∈ pushdataScan [0x7f] (0 + 1) 0 :=
  ⟨build_truncated_push_marking.2.1 [0x7f] 32 (by decide),
   build_truncated_push_marking.2.2.1 [0x7f] 0 0 31 (by decide) (by decide) (by decide)
     (by decide)⟩

/-- C4 counterexample: on the four-byte code of four consecutive `PUSH1`
opcodes, bit 5 is clear (as is bit 7): the pushes at offsets 1 and 3 are
consumed as immediate data by the pushes at offsets 0 and 2, so the scan
never decodes them; the bitmap is `{0b1010, 0}` per the repository's test
vector, not the claimed bits 1, 3, 5, 7. -/
theorem build_consecutive_push1_counterexample :
    bitvecGet (newCodeBitVec [0x60, 0x60, 0x60, 0x60]) 5 = false ∧
    newCodeBitVec [0x60, 0x60, 0x60, 0x60] = [0b1010, 0] := by
  decide

/-- C4 (amended): `Build` on four consecutive `PUSH1` opcode bytes produces a
bitmap in which exactly bits 1 and 3 are set: the scan decodes pushes at
offsets 0 and 2 only, each marking the following byte — itself a push opcode
byte — as data, and advances over it. -/
theorem build_consecutive_push1 :
    ∀ pos, bitvecGet (newCodeBitVec [0x60, 0x60, 0x60, 0x60]) pos =
      decide (pos = 1 ∨ pos = 3) := by
  intro pos
  by_cases h : pos < 64
  · have hall : ∀ q, q < 64 →
        bitvecGet (newCodeBitVec [0x60, 0x60, 0x60, 0x60]) q = decide (q = 1 ∨ q = 3) := by
      decide
    exact hall pos h
  · have hbv : newCodeBitVec [0x60, 0x60, 0x60, 0x60] = [0b1010, 0] := by decide
    unfold bitvecGet
    rw [hbv, List.getD_eq_default _ _ (by simp only [List.length_cons, List.length_nil]; omega),
      Nat.zero_testBit]
    symm
    simp only [decide_eq_false_iff_not]
    omega

/-- C5: `isPushData` returns `false` at every position at or beyond the
analyzed code length; as a total Lean function it is defined for every
non-negative position and never fails. -/
theorem isPushData_out_of_range (code : List Nat) (pos : Nat) (h : code.length ≤ pos) :
    isPushData code pos = false := by
  unfold isPushData
  rw [decide_eq_false (by omega)]
  rfl

/-- C5 witness: querying position 7 of the two-byte code `[PUSH1, 0x01]`. -/
theorem isPushData_out_of_range_witness : isPushData [0x60, 0x01] 7 = false :=
  isPushData_out_of_range [0x60, 0x01] 7 (by decide)

/-- C6: `Build` is total — a Lean function defined on every code buffer — and
its bitmap always holds at least two 32-bit words; on the empty buffer it is
exactly two all-zero words. -/
theorem build_min_two_words (code : List Nat) :
    2 ≤ (newCodeBitVec code).length ∧ newCodeBitVec [] = [0, 0] := by
  refine ⟨?_, rfl⟩
  simp only [newCodeBitVec, List.length_map, List.length_range]
  omega

/-- C3 at the failing input: two batched calls both failing (raw errors
"boom1" and "boom2") with revert-reason decoding unavailable. `Multicall`
returns every call's result together with a non-`nil` error, but that error
is `(2, "boom2")` — the index and reason of the LAST failing call — not
`(1, "boom1")` of the first, because the Go loop overwrites `firstErr` on
every failing result instead of setting it only once. -/
theorem multicall_surfaces_last_error :
    Multicall (fun _ => none)
        [ExecResult.mk [] (some "boom1"), ExecResult.mk [] (some "boom2")] =
      ([ExecResult.mk [] (some "boom1"), ExecResult.mk [] (some "boom2")],
        some (2, "boom2")) ∧
    multicallCollect (fun _ => none)
        [ExecResult.mk [] (some "boom1"), ExecResult.mk [] (some "boom2")] ≠
      some (1, "boom1") := by
  exact ⟨rfl, by decide⟩

/-- C9: one unrolling of the batch loop: when the current call executes
without a fatal setup/VM error (yielding record `r` and post-state `st'`),
the batch result prepends `r` and continues with the remaining calls from
`st'` (committed when further calls follow) — whatever `r.err` is, so a
failure recorded in a call's result aborts nothing, and every later call
starts from the state produced by the earlier calls. -/
theorem doMulticall_no_abort_threads_state {Call Fatal σ : Type}
    (applyCall : Call → σ → Except Fatal (ExecResult × σ)) (commit : σ → σ)
    (c : Call) (cs : List Call) (st st' : σ) (r : ExecResult)
    (h : applyCall c st = Except.ok (r, st')) :
    DoMulticall applyCall commit (c :: cs) st =
      Except.map (fun p => (r :: p.1, p.2))
        (DoMulticall applyCall commit cs (if cs.isEmpty then st' else commit st')) := by
  have e1 : doMulticallLoop applyCall commit (c :: cs) st [] =
      doMulticallLoop applyCall commit cs (if cs.isEmpty then st' else commit st') [r] := by
    simp [doMulticallLoop, h]
  show doMulticallLoop applyCall commit (c :: cs) st [] = _
  rw [e1, doMulticallLoop_acc]
  show _ = Except.map _ (doMulticallLoop applyCall commit cs _ [])
  cases doMulticallLoop applyCall commit cs (if cs.isEmpty then st' else commit st') [] with
  | error e => simp [Except.map]
  | ok p => simp [Except.map]

/-- C9 witness: a two-call batch over state `Nat` in which the first call
fails (its record carries `err = some "revert"`) yet the second call still
runs, from the first call's post-state `0 + 3`. -/
theorem doMulticall_no_abort_threads_state_witness :
    DoMulticall
        (fun (c s : Nat) =>
          (Except.ok (ExecResult.mk [] (some "revert"), s + c) : Except Unit (ExecResult × Nat)))
        (fun s => s) (3 :: [7]) 0 =
      Except.map (fun p => (ExecResult.mk [] (some "revert") :: p.1, p.2))
        (DoMulticall
          (fun (c s : Nat) =>
            (Except.ok (ExecResult.mk [] (some "revert"), s + c) :
              Except Unit (ExecResult × Nat)))
          (fun s => s) [7]
          (if ([7] : List Nat).isEmpty then 0 + 3 else (fun (s : Nat) => s) (0 + 3))) :=
  doMulticall_no_abort_threads_state _ _ 3 [7] 0 (0 + 3) (ExecResult.mk [] (some "revert")) rfl
